import Mathlib

/-!
Shallow embedding of the observation-ledger and delta-analytics engine of
kakao_friends_count.py, together with theorems checking the specification
claims against it.

Machine reals of the source (Python floats) are modelled as rationals; the
float infinity sentinel returned by delta_change_ratio is modelled by an
explicit inductive tag.
-/

namespace KakaoFriends

/-! ### Configuration constants (source lines 25-45) -/

/-- Row holding the display names (row 1). -/
def NAME_ROW : ℕ := 1

/-- Row holding the channel identity keys (row 2). -/
def HEADER_ROW : ℕ := 2

/-- First data row (row 3). -/
def DATA_START_ROW : ℕ := 3

/-- Column holding the observation date (column A = 1). -/
def DATE_COL : ℕ := 1

/-- Retry delay between failed fetch attempts, in seconds. -/
def RETRY_DELAY : ℚ := 2

/-- Per-channel ceiling on cumulative retry time, in seconds. -/
def MAX_RETRY_TIME : ℚ := 120

/-- Size of the ranking lists. -/
def TOP_N : ℕ := 5

/-- Alert threshold for the delta-volatility ratio (source value 0.30). -/
def DELTA_CHANGE_THRESHOLD : ℚ := 3 / 10

/-! ### Delta-volatility ratio (source lines 91-100) -/

/-- Value of the delta-volatility ratio: the Python float returned by
delta_change_ratio is either the infinity sentinel or a finite value,
modelled as a rational. -/
inductive RatioVal where
  | inf : RatioVal
  | val : ℚ → RatioVal
  deriving DecidableEq

/-- Embedding of delta_change_ratio (source lines 91-100): relative change
of the current delta against the previous delta, with the flat-baseline
special cases. -/
def delta_change_ratio (prev_delta today_delta : ℤ) : RatioVal :=
  if prev_delta = 0 then
    if today_delta ≠ 0 then RatioVal.inf else RatioVal.val 0
  else
    RatioVal.val (|(today_delta : ℚ) - (prev_delta : ℚ)| / |(prev_delta : ℚ)|)

/-- The comparison "ratio >= threshold" (source line 316): the float
infinity sentinel compares greater-or-equal to every finite threshold. -/
def ratioGE (r : RatioVal) (t : ℚ) : Bool :=
  match r with
  | RatioVal.inf => true
  | RatioVal.val q => t ≤ q

/-! ### Ledger cursor (source lines 198-222) -/

/-- Emptiness test for a spreadsheet cell value. -/
def isEmptyCell (s : String) : Bool := s = ""

/-- Truncate a column after its last non-empty cell. This models the
gspread col_values bulk read (source line 203, and the comment at source
lines 78-79): the backing store returns the cell values of a column only
up to the last non-empty cell, with intermediate empty cells present as
empty strings. The full column (one string per row, row r at index r-1)
is therefore truncated after its last non-empty entry. -/
def dropTrailingEmpty (col : List String) : List String :=
  (col.reverse.dropWhile isEmptyCell).reverse

/-- Embedding of find_next_empty_row_and_prev_row (source lines 198-222),
applied to the full date column of the worksheet: the bulk read yields the
column truncated after its last non-empty cell, last_filled_row is the
length of that list, and the cursor is computed from it. -/
def find_next_empty_row_and_prev_row (colA_full : List String) : ℕ × Option ℕ :=
  if (dropTrailingEmpty colA_full).length < DATA_START_ROW then
    (DATA_START_ROW, none)
  else
    ((dropTrailingEmpty colA_full).length + 1,
      if DATA_START_ROW ≤ (dropTrailingEmpty colA_full).length then
        some (dropTrailingEmpty colA_full).length
      else none)

/-! ### Value extractor (source lines 51-57) -/

/-- ASCII whitespace recognized by Python str.strip and the regex class
of whitespace characters (space, tab, newline, carriage return, vertical
tab, form feed). -/
def isPySpace (c : Char) : Bool :=
  c = ' ' || c = '\t' || c = '\n' || c = '\r' || c = '\x0b' || c = '\x0c'

/-- Python str.strip: remove leading and trailing whitespace. -/
def pyStrip (cs : List Char) : List Char :=
  ((cs.dropWhile isPySpace).reverse.dropWhile isPySpace).reverse

/-- Numeric value of a digit character. -/
def digitVal (c : Char) : ℕ := c.toNat - 48

/-- Numeric value of a digit run. -/
def parseNatDigits (ds : List Char) : ℕ :=
  ds.foldl (fun a c => 10 * a + digitVal c) 0

/-- Value of the decimal literal with integer digits i and fraction
digits f. -/
def decimalVal (i f : List Char) : ℚ :=
  (parseNatDigits i : ℚ) + (parseNatDigits f : ℚ) / (10 : ℚ) ^ f.length

/-- After the digits of the first pattern, the regex still has to match
zero or more whitespace characters and then the ten-thousand suffix
character. -/
def isManAfterSpaces (cs : List Char) : Bool :=
  match cs.dropWhile isPySpace with
  | c :: _ => c = '만'
  | [] => false

/-- Attempt of the first regex of normalize_korean_number (source line 53)
at the current position: a greedy digit run, an optional dot-and-digit-run
group, optional whitespace, then the ten-thousand suffix. When the suffix
is absent no shorter digit run can rescue the match (a digit can neither
continue as the dot of the group, nor as whitespace, nor as the suffix),
so the greedy match is the only candidate and backtracking never changes
the outcome. Digits are the ASCII digits. -/
def manMatchAt (cs : List Char) : Option ℚ :=
  let ds := cs.takeWhile Char.isDigit
  let rest := cs.dropWhile Char.isDigit
  if ds.isEmpty then none
  else
    match rest with
    | c :: rest2 =>
      if c = '.' then
        let fs := rest2.takeWhile Char.isDigit
        let rest3 := rest2.dropWhile Char.isDigit
        if fs.isEmpty then none
        else if isManAfterSpaces rest3 then some (decimalVal ds fs) else none
      else if isManAfterSpaces rest then some ((parseNatDigits ds : ℚ)) else none
    | [] => none

/-- re.search of the first pattern: try every position from the left and
return the value captured by the leftmost match. -/
def searchMan : List Char → Option ℚ
  | [] => none
  | c :: cs =>
    match manMatchAt (c :: cs) with
    | some q => some q
    | none => searchMan cs

/-- re.search of the second pattern (a plain digit run, source line 56):
the leftmost maximal digit run. -/
def searchDigitRun : List Char → Option ℕ
  | [] => none
  | c :: cs =>
    if c.isDigit then some (parseNatDigits ((c :: cs).takeWhile Char.isDigit))
    else searchDigitRun cs

/-- Python int() applied to a float: truncation toward zero (the floor for
nonnegative arguments, the ceiling for negative ones). -/
def pyTrunc (q : ℚ) : ℤ := if 0 ≤ q then Rat.floor q else -(Rat.floor (-q))

/-- Embedding of normalize_korean_number (source lines 51-57): strip the
text, remove thousands separators, prefer the suffixed pattern (value
times 10000, truncated to an integer), else fall back to a plain digit
run; none when neither pattern matches. -/
def normalize_korean_number (text : String) : Option ℤ :=
  let cs := (pyStrip text.toList).filter fun c => c ≠ ','
  match searchMan cs with
  | some q => some (pyTrunc (q * 10000))
  | none => (searchDigitRun cs).map fun n => (n : ℤ)

/-! ### Retrying fetcher (source lines 152-168) -/

/-- Outcome of the retrying fetcher: a fetched count, or the raised
timeout error with its message. -/
inductive FetchOutcome where
  | ok : ℤ → FetchOutcome
  | err : String → FetchOutcome
  deriving DecidableEq

/-- Embedding of get_friend_count_with_retry (source lines 152-168). The
environment is modelled by two sequences indexed by the attempt number:
fetch n is the result of the n-th call to get_friend_count_playwright
(none standing for the "not found" outcome), and elapsed n is the
wall-clock time, in seconds, accumulated since the first attempt as
measured right after the n-th call returns. The unbounded while loop is
given fuel; none means the fuel ran out before the loop settled. The
timeout message is the f-string of source line 166, with the float
MAX_RETRY_TIME = 120.0 rendered as "120.0". -/
def get_friend_count_with_retry (kakao_id : String) (fetch : ℕ → Option ℤ)
    (elapsed : ℕ → ℚ) : ℕ → ℕ → Option FetchOutcome
  | 0, _ => none
  | fuel + 1, attempt =>
    match fetch attempt with
    | some cnt => some (FetchOutcome.ok cnt)
    | none =>
      if MAX_RETRY_TIME ≤ elapsed attempt then
        some (FetchOutcome.err (kakao_id ++ " 친구수 조회 실패: " ++ "120.0" ++ "s 초과"))
      else
        get_friend_count_with_retry kakao_id fetch elapsed fuel (attempt + 1)

/-! ### Ledger cells and rows -/

/-- Value written into a spreadsheet cell: the date string or an integer
count. -/
inductive CellVal where
  | str : String → CellVal
  | int : ℤ → CellVal
  deriving DecidableEq

/-- One cell of a bulk update, as in gspread.Cell(row, col, value). -/
structure Cell where
  row : ℕ
  col : ℕ
  val : CellVal
  deriving DecidableEq

/-- Embedding of row_values_1based (source lines 76-82): the bulk-read row
(a list of strings, one per column starting at column 1) prefixed with a
dummy entry so that 1-based column indices address it directly. -/
def row_values_1based (vals : List String) : List (Option String) :=
  none :: vals.map some

/-- Embedding of get_cell_from_row (source lines 85-88): the entry at the
given index when it exists, else none. -/
def get_cell_from_row (row1 : List (Option String)) (col : ℕ) : Option String :=
  (row1.get? col).join

/-- Python str.strip on strings. -/
def pyStripStr (s : String) : String := String.mk (pyStrip s.toList)

/-- Embedding of get_targets_from_header (source lines 182-195): the
identity keys found at the even columns from column 2 of the 1-based
header row, skipping blank cells. range(2, len(header), 2) is the even
numbers from 2 below the length, in increasing order. -/
def get_targets_from_header (vals : List String) : List (ℕ × String) :=
  ((List.range (row_values_1based vals).length).filter
      fun c => decide (2 ≤ c ∧ c % 2 = 0)).filterMap
    fun col =>
      if pyStripStr ((get_cell_from_row (row_values_1based vals) col).getD "") = "" then
        none
      else
        some (col, pyStripStr ((get_cell_from_row (row_values_1based vals) col).getD ""))

/-! ### safe_int (source lines 64-73) -/

/-- Optional leading sign of a Python float literal: returns the sign and
the remaining characters. -/
def parseSign (cs : List Char) : Bool × List Char :=
  match cs with
  | c :: rest =>
    if c = '-' then (true, rest) else if c = '+' then (false, rest) else (false, cs)
  | [] => (false, cs)

/-- Mantissa of a Python float literal: digits with an optional dot and
optional further digits (at least one digit overall), returning its value
and the remaining characters. -/
def parseMantissa (cs : List Char) : Option (ℚ × List Char) :=
  let ip := cs.takeWhile Char.isDigit
  let r1 := cs.dropWhile Char.isDigit
  match r1 with
  | c :: r2 =>
    if c = '.' then
      let fp := r2.takeWhile Char.isDigit
      let r3 := r2.dropWhile Char.isDigit
      if ip.isEmpty ∧ fp.isEmpty then none else some (decimalVal ip fp, r3)
    else if ip.isEmpty then none else some ((parseNatDigits ip : ℚ), r1)
  | [] => if ip.isEmpty then none else some ((parseNatDigits ip : ℚ), [])

/-- Python float() on a (stripped) decimal literal: optional sign,
mantissa, optional exponent part; none when the text is not such a
literal. Special float spellings (infinities, nan, underscore grouping)
are not part of the model. -/
def parseFloatLit (cs : List Char) : Option ℚ :=
  let sg := parseSign cs
  match parseMantissa sg.2 with
  | none => none
  | some (m, r) =>
    let signed := if sg.1 then -m else m
    match r with
    | [] => some signed
    | e :: r2 =>
      if e = 'e' ∨ e = 'E' then
        let esg := parseSign r2
        let ed := esg.2.takeWhile Char.isDigit
        let r4 := esg.2.dropWhile Char.isDigit
        if ed.isEmpty ∨ ¬r4.isEmpty then none
        else
          let ex : ℤ :=
            if esg.1 then -(parseNatDigits ed : ℤ) else (parseNatDigits ed : ℤ)
          some (signed * (10 : ℚ) ^ ex)
      else none

/-- Embedding of safe_int (source lines 64-73): strip the cell text, drop
thousands separators, return none for an empty or unparseable cell, and
otherwise int(float(s)), i.e. the parsed value truncated toward zero. -/
def safe_int (cell : Option String) : Option ℤ :=
  match cell with
  | none => none
  | some v =>
    let s := (pyStrip v.toList).filter fun c => c ≠ ','
    if s.isEmpty then none else (parseFloatLit s).map pyTrunc

/-! ### Observation collector (source lines 256-276) -/

/-- Embedding of the collection loop of main (source lines 256-276):
base_updates starts with the date cell for the target row and column A,
and each entity whose retried fetch produced a value (fetched gives the
outcome per identity key; a permanently failed fetch is none and is only
logged) appends its count cell; the resulting list is handed to the single
bulk write of source line 276 unconditionally. -/
def collectObservations (targets : List (ℕ × String)) (fetched : String → Option ℤ)
    (target_row : ℕ) (today_str : String) : List Cell :=
  Cell.mk target_row DATE_COL (CellVal.str today_str) ::
    targets.filterMap fun t =>
      (fetched t.2).map fun cnt => Cell.mk target_row t.1 (CellVal.int cnt)

/-! ### Delta and alert engine (source lines 284-317) -/

/-- Output of the per-entity loop of main (source lines 284-317): the
delta ranking entries (delta, name, column, previous, current), the rate
ranking entries (rate, name, column, previous, current, delta), the bulk
delta-cell updates, and the alert hits (ratio, name, previous delta,
current delta). -/
structure EngineOut where
  deltas : List (ℤ × String × ℕ × ℤ × ℤ)
  rates : List (ℚ × String × ℕ × ℤ × ℤ × ℤ)
  delta_updates : List Cell
  delta_change_hits : List (RatioVal × String × ℤ × ℤ)
  deriving DecidableEq

/-- Embedding of the loop of source lines 292-317, processing the targets
in order: entities with a missing current count or an unparseable previous
cell are skipped entirely; otherwise the delta entry is recorded, the rate
entry is recorded when the previous value is positive, the delta cell at
column (friend column + 1) is queued, and when the previous delta cell
parses, the volatility ratio is computed and recorded as an alert hit when
it reaches the threshold. -/
def runEngine (nameMap : ℕ → String) (currentCounts : ℕ → Option ℤ)
    (prevRowVals : List (Option String)) (targetRow : ℕ) :
    List (ℕ × String) → EngineOut
  | [] => ⟨[], [], [], []⟩
  | t :: rest =>
    let r := runEngine nameMap currentCounts prevRowVals targetRow rest
    match currentCounts t.1 with
    | none => r
    | some curr =>
      match safe_int (get_cell_from_row prevRowVals t.1) with
      | none => r
      | some prev_friend =>
        let delta := curr - prev_friend
        let name := nameMap t.1
        let newRates :=
          if 0 < prev_friend then
            ((delta : ℚ) / (prev_friend : ℚ), name, t.1, prev_friend, curr, delta) :: r.rates
          else r.rates
        let delta_col := t.1 + 1
        let newHits :=
          match safe_int (get_cell_from_row prevRowVals delta_col) with
          | none => r.delta_change_hits
          | some prev_delta =>
            if ratioGE (delta_change_ratio prev_delta delta) DELTA_CHANGE_THRESHOLD then
              (delta_change_ratio prev_delta delta, name, prev_delta, delta) ::
                r.delta_change_hits
            else r.delta_change_hits
        ⟨(delta, name, t.1, prev_friend, curr) :: r.deltas,
          newRates,
          Cell.mk targetRow delta_col (CellVal.int delta) :: r.delta_updates,
          newHits⟩

/-! ### Alert sorting (source lines 341-344) -/

/-- Embedding of sort_key (source lines 341-342): the sentinel 10 to the
18th for the infinite ratio, the ratio itself otherwise. -/
def sort_key (x : RatioVal × String × ℤ × ℤ) : ℚ :=
  match x.1 with
  | RatioVal.inf => 10 ^ 18
  | RatioVal.val q => q

/-- Embedding of delta_change_hits.sort(key=sort_key, reverse=True)
(source line 344): a stable sort in non-increasing key order. Python
list.sort is stable also under reverse=True (equal keys keep their
original order), and a stable sort with respect to a total preorder has a
unique result, so insertion sort with the non-strict descending key
relation produces exactly the list the source produces. -/
def sortAlerts (hits : List (RatioVal × String × ℤ × ℤ)) :
    List (RatioVal × String × ℤ × ℤ) :=
  List.insertionSort (fun a b => sort_key b ≤ sort_key a) hits

/-- C1: delta_change_ratio returns 0 for (0, 0), infinity for (0, nonzero),
and otherwise the absolute relative change of the deltas; a ratio is
flagged exactly when it is infinite or at least the threshold 0.30, the
threshold being inclusive: (10, 13) is flagged and (10, 12) is not. -/
theorem C1_delta_change_ratio_spec :
    (∀ p t : ℤ, delta_change_ratio p t =
      if p = 0 then (if t = 0 then RatioVal.val 0 else RatioVal.inf)
      else RatioVal.val (|(t : ℚ) - (p : ℚ)| / |(p : ℚ)|))
    ∧ (∀ p t : ℤ, ratioGE (delta_change_ratio p t) DELTA_CHANGE_THRESHOLD = true ↔
        (delta_change_ratio p t = RatioVal.inf ∨
          ∃ q, delta_change_ratio p t = RatioVal.val q ∧ DELTA_CHANGE_THRESHOLD ≤ q))
    ∧ ratioGE (delta_change_ratio 10 13) DELTA_CHANGE_THRESHOLD = true
    ∧ ratioGE (delta_change_ratio 10 12) DELTA_CHANGE_THRESHOLD = false := by
  refine ⟨?_, ?_, ?_, ?_⟩
  · intro p t
    by_cases hp : p = 0 <;> by_cases ht : t = 0 <;> simp [delta_change_ratio, hp, ht]
  · intro p t
    cases hr : delta_change_ratio p t with
    | inf => simp [ratioGE]
    | val q => simp [ratioGE]
  · have h1 : delta_change_ratio 10 13 = RatioVal.val (3 / 10) := by
      rw [delta_change_ratio]
      rw [if_neg (by decide)]
      congr 1
      push_cast
      rw [show (13 : ℚ) - (10 : ℚ) = 3 by norm_num,
        abs_of_nonneg (by norm_num : (0 : ℚ) ≤ 3),
        abs_of_nonneg (by norm_num : (0 : ℚ) ≤ (10 : ℚ))]
    rw [h1]
    simp [ratioGE, DELTA_CHANGE_THRESHOLD]
  · have h2 : delta_change_ratio 10 12 = RatioVal.val (1 / 5) := by
      rw [delta_change_ratio]
      rw [if_neg (by decide)]
      congr 1
      push_cast
      rw [show (12 : ℚ) - (10 : ℚ) = 2 by norm_num,
        abs_of_nonneg (by norm_num : (0 : ℚ) ≤ 2),
        abs_of_nonneg (by norm_num : (0 : ℚ) ≤ (10 : ℚ))]
      norm_num
    rw [h2]
    simp [ratioGE, DELTA_CHANGE_THRESHOLD]
    norm_num

/-- Helper: dropWhile skips a whole prefix all of whose elements satisfy
the predicate. -/
theorem dropWhile_append_of_all {α : Type} (p : α → Bool) (l1 l2 : List α)
    (h : ∀ x ∈ l1, p x = true) : (l1 ++ l2).dropWhile p = l2.dropWhile p := by
  induction l1 with
  | nil => rfl
  | cons a l ih =>
    have ha := h a (List.mem_cons_self a l)
    simp only [List.cons_append, List.dropWhile_cons, ha, if_true]
    exact ih fun x hx => h x (List.mem_cons_of_mem a hx)

/-- Helper: a column that ends in a non-empty cell is left unchanged by the
bulk-read truncation. -/
theorem dropTrailingEmpty_snoc (pre : List String) (x : String) (hx : x ≠ "") :
    dropTrailingEmpty (pre ++ [x]) = pre ++ [x] := by
  unfold dropTrailingEmpty
  rw [List.reverse_append]
  simp only [List.reverse_cons, List.reverse_nil, List.nil_append, List.singleton_append]
  rw [List.dropWhile_cons]
  have hx2 : isEmptyCell x = false := by
    simp [isEmptyCell, hx]
  rw [hx2]
  simp

/-- Helper: trailing empty cells are removed by the bulk-read truncation. -/
theorem dropTrailingEmpty_append_empties (front empties : List String)
    (h : ∀ s ∈ empties, s = "") :
    dropTrailingEmpty (front ++ empties) = dropTrailingEmpty front := by
  unfold dropTrailingEmpty
  rw [List.reverse_append]
  rw [dropWhile_append_of_all isEmptyCell empties.reverse front.reverse]
  intro x hx
  have := h x (List.mem_reverse.mp hx)
  simp [isEmptyCell, this]

/-- C2: for a date column whose data rows are filled contiguously from row
3 with L filled entries and no gaps, the cursor returns (3 + L, 3 + L - 1)
when L is positive, and (3, none) when L = 0; in particular rows 3..7
filled gives (8, some 7) and an empty ledger gives (3, none). -/
theorem C2_cursor_contiguous :
    (∀ (a b : String) (data empties : List String), data ≠ [] →
      (∀ s ∈ data, s ≠ "") → (∀ s ∈ empties, s = "") →
      find_next_empty_row_and_prev_row (a :: b :: (data ++ empties)) =
        (3 + data.length, some (2 + data.length)))
    ∧ (∀ (a b : String) (empties : List String), (∀ s ∈ empties, s = "") →
      find_next_empty_row_and_prev_row (a :: b :: empties) = (3, none))
    ∧ find_next_empty_row_and_prev_row [] = (3, none) := by
  refine ⟨?_, ?_, by decide⟩
  · intro a b data empties hne hfill hemp
    obtain ⟨pre, x, hdata⟩ := List.eq_nil_or_concat data |>.resolve_left hne
    rw [List.concat_eq_append] at hdata
    have hx : x ≠ "" := hfill x (by rw [hdata]; exact List.mem_append_right pre (by simp))
    have hcol : (a :: b :: (data ++ empties)) = ((a :: b :: pre) ++ [x]) ++ empties := by
      rw [hdata]; simp
    have htrunc : dropTrailingEmpty (a :: b :: (data ++ empties)) = (a :: b :: pre) ++ [x] := by
      rw [hcol, dropTrailingEmpty_append_empties _ _ hemp, dropTrailingEmpty_snoc _ _ hx]
    have hlen : ((a :: b :: pre) ++ [x]).length = 2 + data.length := by
      simp [hdata]
      omega
    have hd0 : data.length ≠ 0 := fun h0 => hne (List.eq_nil_of_length_eq_zero h0)
    unfold find_next_empty_row_and_prev_row
    rw [htrunc, hlen]
    rw [if_neg (show ¬(2 + data.length < DATA_START_ROW) by
      show ¬(2 + data.length < 3); omega)]
    rw [if_pos (show DATA_START_ROW ≤ 2 + data.length by
      show 3 ≤ 2 + data.length; omega)]
    rw [show 2 + data.length + 1 = 3 + data.length by omega]
  · intro a b empties hemp
    have htrunc : dropTrailingEmpty (a :: b :: empties) = dropTrailingEmpty [a, b] :=
      dropTrailingEmpty_append_empties [a, b] empties hemp
    have hlen : (dropTrailingEmpty (a :: b :: empties)).length < DATA_START_ROW := by
      rw [htrunc]
      have h1 : (dropTrailingEmpty [a, b]).length ≤ ([a, b] : List String).length := by
        unfold dropTrailingEmpty
        rw [List.length_reverse]
        calc (List.dropWhile isEmptyCell ([a, b] : List String).reverse).length
            ≤ ([a, b] : List String).reverse.length :=
              (List.dropWhile_sublist _).length_le
          _ = ([a, b] : List String).length := List.length_reverse _
      show (dropTrailingEmpty [a, b]).length < 3
      simp at h1
      omega
    unfold find_next_empty_row_and_prev_row
    rw [if_pos hlen]
    rfl

/-- Witness for C2: rows 3..7 filled and nothing after gives (8, some 7). -/
theorem C2_cursor_contiguous_witness :
    find_next_empty_row_and_prev_row
        ("date" :: "ignored" :: (["d1", "d2", "d3", "d4", "d5"] ++ [])) = (8, some 7) :=
  C2_cursor_contiguous.1 "date" "ignored" ["d1", "d2", "d3", "d4", "d5"] []
    (by decide) (by decide) (by decide)

/-- C4 counterexample: in the column with rows 3 and 5 filled and row 4 an
interior gap, the claim says the cursor treats the ledger as ending at the
first gap, i.e. the next writable row would be 4; the code instead counts
the bulk read up to the last non-empty cell and returns next row 6. -/
theorem C4_counterexample :
    find_next_empty_row_and_prev_row ["", "", "x", "", "y"] = (6, some 5) ∧ (6 : ℕ) ≠ 4 := by
  constructor
  · decide
  · decide

/-- C4 amended: for a date column with a gap, the cursor treats the ledger
as ending at the last filled row, not at the first gap: the next writable
row is the row after the last non-empty date cell, and the previous row is
the last non-empty date cell, regardless of interior gaps. -/
theorem C4_amended_cursor_gap :
    ∀ (pre : List String) (x : String) (empties : List String), x ≠ "" →
      (∀ s ∈ empties, s = "") → 3 ≤ (pre ++ [x]).length →
      find_next_empty_row_and_prev_row ((pre ++ [x]) ++ empties) =
        ((pre ++ [x]).length + 1, some (pre ++ [x]).length) := by
  intro pre x empties hx hemp hlen3
  have htrunc : dropTrailingEmpty ((pre ++ [x]) ++ empties) = pre ++ [x] := by
    rw [dropTrailingEmpty_append_empties _ _ hemp, dropTrailingEmpty_snoc _ _ hx]
  unfold find_next_empty_row_and_prev_row
  rw [htrunc]
  rw [if_neg (by simp only [DATA_START_ROW]; omega)]
  rw [if_pos (by simp only [DATA_START_ROW]; omega)]

/-- Witness for C4 amended: gap at row 4, filled rows 3 and 5, trailing
empty row: cursor returns (6, some 5). -/
theorem C4_amended_cursor_gap_witness :
    find_next_empty_row_and_prev_row ((["", "", "x", ""] ++ ["y"]) ++ [""]) = (6, some 5) :=
  C4_amended_cursor_gap ["", "", "x", ""] "y" [""] (by decide) (by decide) (by decide)

/-- C3: one step of the retry loop returns the fetched value immediately
when the attempt succeeds, no matter the elapsed time or the number of
prior attempts; when the attempt fails it raises the timeout error naming
the channel and the 120.0-second ceiling exactly if the cumulative elapsed
time has reached the ceiling, and otherwise retries the next attempt. -/
theorem C3_retry_fetcher :
    (∀ (id : String) (fetch : ℕ → Option ℤ) (elapsed : ℕ → ℚ) (fuel n : ℕ) (v : ℤ),
      fetch n = some v →
      get_friend_count_with_retry id fetch elapsed (fuel + 1) n = some (FetchOutcome.ok v))
    ∧ (∀ (id : String) (fetch : ℕ → Option ℤ) (elapsed : ℕ → ℚ) (fuel n : ℕ),
      fetch n = none → MAX_RETRY_TIME ≤ elapsed n →
      get_friend_count_with_retry id fetch elapsed (fuel + 1) n =
        some (FetchOutcome.err (id ++ " 친구수 조회 실패: " ++ "120.0" ++ "s 초과")))
    ∧ (∀ (id : String) (fetch : ℕ → Option ℤ) (elapsed : ℕ → ℚ) (fuel n : ℕ),
      fetch n = none → elapsed n < MAX_RETRY_TIME →
      get_friend_count_with_retry id fetch elapsed (fuel + 1) n =
        get_friend_count_with_retry id fetch elapsed fuel (n + 1)) := by
  refine ⟨?_, ?_, ?_⟩
  · intro id fetch elapsed fuel n v h
    unfold get_friend_count_with_retry
    rw [h]
  · intro id fetch elapsed fuel n h ht
    unfold get_friend_count_with_retry
    rw [h]
    simp only [if_pos ht]
  · intro id fetch elapsed fuel n h ht
    unfold get_friend_count_with_retry
    rw [h]
    simp only [if_neg (not_le.mpr ht)]
    cases fuel <;> rfl

/-- Witness for C3: every attempt fails and the clock advances 2 seconds
per attempt, so at attempt 60 the cumulative elapsed time is 120 seconds
and the loop raises the timeout error. -/
theorem C3_retry_fetcher_witness :
    get_friend_count_with_retry "ch" (fun _ => none) (fun n => 2 * n) 1 60 =
      some (FetchOutcome.err ("ch" ++ " 친구수 조회 실패: " ++ "120.0" ++ "s 초과")) :=
  C3_retry_fetcher.2.1 "ch" (fun _ => none) (fun n => 2 * n) 0 60 rfl
    (by norm_num [MAX_RETRY_TIME])

/-- Helper: the executable rational floor agrees with the mathematical
floor. -/
theorem ratFloor_eq_intFloor (q : ℚ) : Rat.floor q = ⌊q⌋ := by
  rw [Rat.floor_def', Rat.floor_def]

/-- Helper: Python int() truncation is the floor on nonnegative values. -/
theorem pyTrunc_nonneg (q : ℚ) (h : 0 ≤ q) : pyTrunc q = ⌊q⌋ := by
  unfold pyTrunc
  rw [if_pos h, ratFloor_eq_intFloor]

/-- Helper: a digit character is not whitespace. -/
theorem digit_not_space {c : Char} (h : c.isDigit = true) : isPySpace c = false := by
  cases hs : isPySpace c
  · rfl
  · exfalso
    simp only [isPySpace, Bool.or_eq_true, decide_eq_true_eq] at hs
    rcases hs with ((((h1 | h1) | h1) | h1) | h1) | h1 <;> subst h1 <;>
      exact absurd h (by decide)

/-- Helper: a digit character is not the thousands separator. -/
theorem digit_ne_comma {c : Char} (h : c.isDigit = true) : c ≠ ',' := by
  intro he
  subst he
  exact absurd h (by decide)

/-- Helper: the greedy digit run of a digit prefix followed by a non-digit
is exactly the prefix. -/
theorem takeWhile_append_stop {α : Type} (p : α → Bool) (l1 : List α) (x : α)
    (l2 : List α) (h1 : ∀ c ∈ l1, p c = true) (hx : p x = false) :
    (l1 ++ x :: l2).takeWhile p = l1 := by
  induction l1 with
  | nil => simp [List.takeWhile_cons, hx]
  | cons a l ih =>
    have ha := h1 a (List.mem_cons_self a l)
    simp only [List.cons_append, List.takeWhile_cons, ha, if_true]
    rw [ih fun c hc => h1 c (List.mem_cons_of_mem a hc)]

/-- Helper: dropping the greedy digit run of a digit prefix followed by a
non-digit leaves the rest. -/
theorem dropWhile_append_stop {α : Type} (p : α → Bool) (l1 : List α) (x : α)
    (l2 : List α) (h1 : ∀ c ∈ l1, p c = true) (hx : p x = false) :
    (l1 ++ x :: l2).dropWhile p = x :: l2 := by
  induction l1 with
  | nil => simp [List.dropWhile_cons, hx]
  | cons a l ih =>
    have ha := h1 a (List.mem_cons_self a l)
    simp only [List.cons_append, List.dropWhile_cons, ha, if_true]
    exact ih fun c hc => h1 c (List.mem_cons_of_mem a hc)

/-- Helper: dropWhile across an append whose second part starts with a
failing element. -/
theorem dropWhile_append_head_stop {α : Type} (p : α → Bool) (l1 l2 : List α)
    (x : α) (hx : p x = false) :
    (l1 ++ x :: l2).dropWhile p = l1.dropWhile p ++ x :: l2 := by
  induction l1 with
  | nil => simp [List.dropWhile_cons, hx]
  | cons a l ih =>
    cases pa : p a <;> simp [List.dropWhile_cons, pa, ih]

/-- Helper: evaluation of the suffixed-number search on a text of the form
digits, dot, digits, ten-thousand suffix, arbitrary tail. -/
theorem searchMan_decimal (i f rest2 : List Char) (hi : i ≠ [])
    (hf : f ≠ []) (hdi : ∀ c ∈ i, c.isDigit = true) (hdf : ∀ c ∈ f, c.isDigit = true) :
    searchMan (i ++ '.' :: (f ++ '만' :: rest2)) = some (decimalVal i f) := by
  obtain ⟨i0, i1, hi0⟩ := List.exists_cons_of_ne_nil hi
  obtain ⟨f0, f1, hf0⟩ := List.exists_cons_of_ne_nil hf
  have htake : (i ++ '.' :: (f ++ '만' :: rest2)).takeWhile Char.isDigit = i :=
    takeWhile_append_stop _ i '.' _ hdi (by decide)
  have hdrop : (i ++ '.' :: (f ++ '만' :: rest2)).dropWhile Char.isDigit =
      '.' :: (f ++ '만' :: rest2) :=
    dropWhile_append_stop _ i '.' _ hdi (by decide)
  have htake2 : (f ++ '만' :: rest2).takeWhile Char.isDigit = f :=
    takeWhile_append_stop _ f '만' _ hdf (by decide)
  have hdrop2 : (f ++ '만' :: rest2).dropWhile Char.isDigit = '만' :: rest2 :=
    dropWhile_append_stop _ f '만' _ hdf (by decide)
  have hman : isManAfterSpaces ('만' :: rest2) = true := by
    have hsp : isPySpace '만' = false := by decide
    simp [isManAfterSpaces, List.dropWhile_cons, hsp]
  have hmatch : manMatchAt (i ++ '.' :: (f ++ '만' :: rest2)) = some (decimalVal i f) := by
    simp only [manMatchAt, htake, hdrop, htake2, hdrop2, hman]
    rw [hi0, hf0]
    simp
  rw [hi0] at hmatch ⊢
  rw [List.cons_append]
  rw [List.cons_append] at hmatch
  simp only [searchMan, hmatch]

/-- C5: for every text made of a decimal number (nonempty digit run, dot,
nonempty digit run) immediately followed by the ten-thousand suffix and an
arbitrary tail, the extractor returns the number multiplied by 10000 and
truncated (here: floored, the value being nonnegative); in particular
"3.2만" gives floor(3.2 * 10000) = 32000, and in "100 3.2만" the suffixed
pattern is preferred over the earlier plain digit run 100. -/
theorem C5_value_extractor :
    (∀ (i f rest : List Char), i ≠ [] → f ≠ [] →
      (∀ c ∈ i, c.isDigit = true) → (∀ c ∈ f, c.isDigit = true) →
      normalize_korean_number (String.mk (i ++ '.' :: (f ++ '만' :: rest))) =
        some ⌊decimalVal i f * 10000⌋)
    ∧ normalize_korean_number "3.2만" = some 32000
    ∧ normalize_korean_number "100 3.2만" = some 32000 := by
  have hpy32 : pyTrunc (decimalVal ['3'] ['2'] * 10000) = 32000 := by
    have h3 : parseNatDigits ['3'] = 3 := rfl
    have h2 : parseNatDigits ['2'] = 2 := rfl
    have hd : decimalVal ['3'] ['2'] = 16 / 5 := by
      unfold decimalVal
      rw [h3, h2]
      norm_num
    rw [hd, pyTrunc_nonneg _ (by norm_num)]
    rw [show (16 / 5 * 10000 : ℚ) = ((32000 : ℤ) : ℚ) by norm_num, Int.floor_intCast]
  refine ⟨?_, ?_, ?_⟩
  · intro i f rest hi hf hdi hdf
    obtain ⟨i0, i1, hi0⟩ := List.exists_cons_of_ne_nil hi
    have hhead : Char.isDigit i0 = true := hdi i0 (by rw [hi0]; exact List.mem_cons_self i0 i1)
    -- the strip is the identity on the head and eats only whitespace of the tail
    have hfront : (i ++ '.' :: (f ++ '만' :: rest)).dropWhile isPySpace =
        i ++ '.' :: (f ++ '만' :: rest) := by
      rw [hi0, List.cons_append, List.dropWhile_cons, digit_not_space hhead]
      simp
    have hstrip : pyStrip (i ++ '.' :: (f ++ '만' :: rest)) =
        i ++ '.' :: (f ++ '만' :: ((rest.reverse.dropWhile isPySpace).reverse)) := by
      unfold pyStrip
      rw [hfront]
      rw [show i ++ '.' :: (f ++ '만' :: rest) = (i ++ '.' :: f) ++ '만' :: rest by simp]
      rw [List.reverse_append]
      rw [List.reverse_cons]
      rw [List.append_assoc, List.singleton_append]
      rw [dropWhile_append_head_stop isPySpace rest.reverse _ '만' (by decide)]
      rw [List.reverse_append, List.reverse_cons, List.reverse_reverse]
      simp
    have hfilter : ((i ++ '.' :: (f ++ '만' ::
        ((rest.reverse.dropWhile isPySpace).reverse))).filter fun c => c ≠ ',') =
        i ++ '.' :: (f ++ '만' ::
          (((rest.reverse.dropWhile isPySpace).reverse).filter fun c => c ≠ ',')) := by
      rw [List.filter_append, List.filter_cons, List.filter_append, List.filter_cons]
      have hfi : (i.filter fun c => c ≠ ',') = i :=
        List.filter_eq_self.mpr fun c hc => by
          simpa using digit_ne_comma (hdi c hc)
      have hff : (f.filter fun c => c ≠ ',') = f :=
        List.filter_eq_self.mpr fun c hc => by
          simpa using digit_ne_comma (hdf c hc)
      rw [hfi, hff]
      simp
    have htl : (String.mk (i ++ '.' :: (f ++ '만' :: rest))).toList =
        i ++ '.' :: (f ++ '만' :: rest) := rfl
    have hnn : (0 : ℚ) ≤ decimalVal i f * 10000 := by
      have h0 : (0 : ℚ) ≤ decimalVal i f := by
        unfold decimalVal
        positivity
      exact mul_nonneg h0 (by norm_num)
    simp only [normalize_korean_number]
    rw [htl, hstrip, hfilter, searchMan_decimal i f _ hi hf hdi hdf]
    show some (pyTrunc (decimalVal i f * 10000)) = some ⌊decimalVal i f * 10000⌋
    rw [pyTrunc_nonneg _ hnn]
  · have h1 : normalize_korean_number "3.2만" =
        some (pyTrunc (decimalVal ['3'] ['2'] * 10000)) := rfl
    rw [h1, hpy32]
  · have h1 : normalize_korean_number "100 3.2만" =
        some (pyTrunc (decimalVal ['3'] ['2'] * 10000)) := rfl
    rw [h1, hpy32]

/-- Witness for C5: the number 7.5 followed by the suffix yields
floor(7.5 * 10000) = 75000. -/
theorem C5_value_extractor_witness :
    normalize_korean_number (String.mk (['7'] ++ '.' :: (['5'] ++ '만' :: []))) =
      some ⌊decimalVal ['7'] ['5'] * 10000⌋ :=
  C5_value_extractor.1 ['7'] ['5'] [] (by decide) (by decide) (by decide) (by decide)

/-- C7: an entity with a missing current count (failed fetch) or an
unparseable previous cell contributes nothing to the engine: the run over
targets containing it equals the run over the remaining targets, so it is
absent from the delta ranking, the rate ranking, the alert hits and the
delta bulk write, while all other entities are processed unchanged. -/
theorem C7_skip_missing_entity :
    ∀ (nm : ℕ → String) (cc : ℕ → Option ℤ) (pv : List (Option String)) (tr : ℕ)
      (l1 l2 : List (ℕ × String)) (c : ℕ) (kid : String),
      cc c = none ∨ safe_int (get_cell_from_row pv c) = none →
      runEngine nm cc pv tr (l1 ++ (c, kid) :: l2) = runEngine nm cc pv tr (l1 ++ l2) := by
  intro nm cc pv tr l1 l2 c kid h
  induction l1 with
  | nil =>
    simp only [List.nil_append]
    rcases h with h | h
    · simp only [runEngine, h]
    · cases hcc : cc c with
      | none => simp only [runEngine, hcc]
      | some curr => simp only [runEngine, hcc, h]
  | cons t rest ih =>
    simp only [List.cons_append, runEngine, List.append_eq, ih]

/-- Witness for C7: the entity at column 2 has no fetched count, so the
engine run with it equals the run without it. -/
theorem C7_skip_missing_entity_witness :
    runEngine (fun _ => "N") (fun c => if c = 2 then none else some 7)
        [none, none, some "3", none, some "4"] 3 ([] ++ (2, "a") :: [(4, "b")]) =
      runEngine (fun _ => "N") (fun c => if c = 2 then none else some 7)
        [none, none, some "3", none, some "4"] 3 ([] ++ [(4, "b")]) :=
  C7_skip_missing_entity (fun _ => "N") (fun c => if c = 2 then none else some 7)
    [none, none, some "3", none, some "4"] 3 [] [(4, "b")] 2 "a" (Or.inl rfl)

/-- C10: the bulk write assembled by the observation collector always
starts with the date cell for the target row, whatever the fetch outcomes;
when every fetch failed, the write is exactly the date-only row, so the
date column stays contiguous. -/
theorem C10_date_cell_always_written :
    ∀ (targets : List (ℕ × String)) (fetched : String → Option ℤ) (tr : ℕ) (today : String),
      Cell.mk tr DATE_COL (CellVal.str today) ∈ collectObservations targets fetched tr today
      ∧ ((∀ t ∈ targets, fetched t.2 = none) →
          collectObservations targets fetched tr today =
            [Cell.mk tr DATE_COL (CellVal.str today)]) := by
  intro targets fetched tr today
  constructor
  · exact List.mem_cons_self _ _
  · intro h
    unfold collectObservations
    have hnil : (targets.filterMap fun t =>
        (fetched t.2).map fun cnt => Cell.mk tr t.1 (CellVal.int cnt)) = [] := by
      rw [List.filterMap_eq_nil_iff]
      intro t ht
      rw [h t ht]
      rfl
    rw [hnil]

/-- Witness for C10: with every fetch failing, the bulk write is the
date-only row. -/
theorem C10_date_cell_always_written_witness :
    collectObservations [(2, "k")] (fun _ => none) 3 "2026-10-12" =
      [Cell.mk 3 DATE_COL (CellVal.str "2026-10-12")] :=
  (C10_date_cell_always_written [(2, "k")] (fun _ => none) 3 "2026-10-12").2
    fun _ _ => rfl

/-- Helper: an entity with both values present contributes its delta entry
to the engine output. -/
theorem runEngine_mem_deltas (nm : ℕ → String) (cc : ℕ → Option ℤ)
    (pv : List (Option String)) (tr : ℕ) :
    ∀ (targets : List (ℕ × String)) (c : ℕ) (kid : String) (curr prev : ℤ),
      (c, kid) ∈ targets → cc c = some curr →
      safe_int (get_cell_from_row pv c) = some prev →
      (curr - prev, nm c, c, prev, curr) ∈ (runEngine nm cc pv tr targets).deltas := by
  intro targets
  induction targets with
  | nil => intro c kid curr prev h _ _; cases h
  | cons t rest ih =>
    intro c kid curr prev ht hc hp
    rcases List.mem_cons.mp ht with he | hm
    · subst he
      simp only [runEngine, hc, hp]
      exact List.mem_cons_self _ _
    · have hr := ih c kid curr prev hm hc hp
      simp only [runEngine]
      cases hcc : cc t.1 with
      | none => exact hr
      | some curr2 =>
        cases hsp : safe_int (get_cell_from_row pv t.1) with
        | none => exact hr
        | some prev2 => exact List.mem_cons_of_mem _ hr

/-- Helper: an entity with both values present and a positive previous
value contributes its rate entry to the engine output. -/
theorem runEngine_mem_rates (nm : ℕ → String) (cc : ℕ → Option ℤ)
    (pv : List (Option String)) (tr : ℕ) :
    ∀ (targets : List (ℕ × String)) (c : ℕ) (kid : String) (curr prev : ℤ),
      (c, kid) ∈ targets → cc c = some curr →
      safe_int (get_cell_from_row pv c) = some prev → 0 < prev →
      (((curr - prev : ℤ) : ℚ) / (prev : ℚ), nm c, c, prev, curr, curr - prev) ∈
        (runEngine nm cc pv tr targets).rates := by
  intro targets
  induction targets with
  | nil => intro c kid curr prev h _ _ _; cases h
  | cons t rest ih =>
    intro c kid curr prev ht hc hp hpos
    rcases List.mem_cons.mp ht with he | hm
    · subst he
      simp only [runEngine, hc, hp, if_pos hpos]
      exact List.mem_cons_self _ _
    · have hr := ih c kid curr prev hm hc hp hpos
      simp only [runEngine]
      cases hcc : cc t.1 with
      | none => exact hr
      | some curr2 =>
        cases hsp : safe_int (get_cell_from_row pv t.1) with
        | none => exact hr
        | some prev2 =>
          by_cases hpos2 : 0 < prev2
          · simp only [if_pos hpos2]
            exact List.mem_cons_of_mem _ hr
          · simp only [if_neg hpos2]
            exact hr

/-- Helper: every rate entry in the engine output comes from a column
whose previous value parses to a positive integer. -/
theorem runEngine_rates_pos (nm : ℕ → String) (cc : ℕ → Option ℤ)
    (pv : List (Option String)) (tr : ℕ) :
    ∀ (targets : List (ℕ × String)) (e : ℚ × String × ℕ × ℤ × ℤ × ℤ),
      e ∈ (runEngine nm cc pv tr targets).rates →
      ∃ p : ℤ, safe_int (get_cell_from_row pv e.2.2.1) = some p ∧ 0 < p := by
  intro targets
  induction targets with
  | nil => intro e h; simp [runEngine] at h
  | cons t rest ih =>
    intro e
    simp only [runEngine]
    cases hcc : cc t.1 with
    | none => exact ih e
    | some curr =>
      cases hsp : safe_int (get_cell_from_row pv t.1) with
      | none => exact ih e
      | some prev =>
        by_cases hpos : 0 < prev
        · simp only [if_pos hpos]
          intro he
          rcases List.mem_cons.mp he with he2 | hm
          · subst he2
            exact ⟨prev, hsp, hpos⟩
          · exact ih e hm
        · simp only [if_neg hpos]
          exact ih e

/-- C6: an entity with both values present always enters the delta ranking
with delta = current minus previous; when the previous value is 0 it is
excluded from the rate ranking entirely, and when the previous value is
positive it also enters the rate ranking with rate = delta / previous. -/
theorem C6_rate_ranking_zero_prev :
    ∀ (nm : ℕ → String) (cc : ℕ → Option ℤ) (pv : List (Option String)) (tr : ℕ)
      (targets : List (ℕ × String)) (c : ℕ) (kid : String) (curr prev : ℤ),
      (c, kid) ∈ targets → cc c = some curr →
      safe_int (get_cell_from_row pv c) = some prev →
      ((curr - prev, nm c, c, prev, curr) ∈ (runEngine nm cc pv tr targets).deltas
        ∧ (prev = 0 → ∀ e ∈ (runEngine nm cc pv tr targets).rates, e.2.2.1 ≠ c)
        ∧ (0 < prev →
            (((curr - prev : ℤ) : ℚ) / (prev : ℚ), nm c, c, prev, curr, curr - prev) ∈
              (runEngine nm cc pv tr targets).rates)) := by
  intro nm cc pv tr targets c kid curr prev ht hc hp
  refine ⟨runEngine_mem_deltas nm cc pv tr targets c kid curr prev ht hc hp, ?_, ?_⟩
  · intro hz e he hec
    obtain ⟨p, hps, hppos⟩ := runEngine_rates_pos nm cc pv tr targets e he
    rw [hec] at hps
    rw [hp] at hps
    cases hps
    subst hz
    exact absurd hppos (by norm_num)
  · intro hpos
    exact runEngine_mem_rates nm cc pv tr targets c kid curr prev ht hc hp hpos

/-- Witness for C6: entity at column 2 with previous 100 and current 150
is in the delta ranking with delta 50, vacuously excluded when previous
were zero, and in the rate ranking with rate 50/100. -/
theorem C6_rate_ranking_zero_prev_witness :
    (150 - 100, "A", 2, (100 : ℤ), (150 : ℤ)) ∈
        (runEngine (fun _ => "A") (fun _ => some 150) [none, none, some "100"] 3
          [(2, "k")]).deltas
      ∧ (((150 - 100 : ℤ) : ℚ) / ((100 : ℤ) : ℚ), "A", 2, (100 : ℤ), (150 : ℤ),
            150 - 100) ∈
          (runEngine (fun _ => "A") (fun _ => some 150) [none, none, some "100"] 3
            [(2, "k")]).rates :=
  ⟨(C6_rate_ranking_zero_prev (fun _ => "A") (fun _ => some 150) [none, none, some "100"] 3
      [(2, "k")] 2 "k" 150 100 (List.mem_cons_self _ _) rfl (by decide)).1,
    (C6_rate_ranking_zero_prev (fun _ => "A") (fun _ => some 150) [none, none, some "100"] 3
      [(2, "k")] 2 "k" 150 100 (List.mem_cons_self _ _) rfl (by decide)).2.2
      (by decide)⟩

/-- Helper: every delta cell queued by the engine sits at the target row
in the column one past some target column. -/
theorem runEngine_delta_cols (nm : ℕ → String) (cc : ℕ → Option ℤ)
    (pv : List (Option String)) (tr : ℕ) :
    ∀ (targets : List (ℕ × String)) (u : Cell),
      u ∈ (runEngine nm cc pv tr targets).delta_updates →
      ∃ t, t ∈ targets ∧ u.col = t.1 + 1 ∧ u.row = tr := by
  intro targets
  induction targets with
  | nil => intro u h; simp [runEngine] at h
  | cons t rest ih =>
    intro u
    simp only [runEngine]
    cases hcc : cc t.1 with
    | none =>
      intro h
      obtain ⟨t2, h1, h2⟩ := ih u h
      exact ⟨t2, List.mem_cons_of_mem _ h1, h2⟩
    | some curr =>
      cases hsp : safe_int (get_cell_from_row pv t.1) with
      | none =>
        intro h
        obtain ⟨t2, h1, h2⟩ := ih u h
        exact ⟨t2, List.mem_cons_of_mem _ h1, h2⟩
      | some prev =>
        intro h
        rcases List.mem_cons.mp h with he | hm
        · subst he
          exact ⟨t, List.mem_cons_self _ _, rfl, rfl⟩
        · obtain ⟨t2, h1, h2⟩ := ih u hm
          exact ⟨t2, List.mem_cons_of_mem _ h1, h2⟩

/-- Helper: every column discovered in the header row is even and at
least 2. -/
theorem get_targets_from_header_even :
    ∀ (vals : List String) (p : ℕ × String),
      p ∈ get_targets_from_header vals → p.1 % 2 = 0 ∧ 2 ≤ p.1 := by
  intro vals p hp
  unfold get_targets_from_header at hp
  obtain ⟨c, hcmem, heq⟩ := List.mem_filterMap.mp hp
  obtain ⟨hcr, hcond⟩ := List.mem_filter.mp hcmem
  have hcond2 : 2 ≤ c ∧ c % 2 = 0 := of_decide_eq_true hcond
  by_cases hv :
      pyStripStr ((get_cell_from_row (row_values_1based vals) c).getD "") = ""
  · rw [if_pos hv] at heq
    cases heq
  · rw [if_neg hv] at heq
    cases heq
    exact ⟨hcond2.2, hcond2.1⟩

/-- C9: every tracked entity discovered in the header sits at an even
column at least 2, and every delta cell the engine queues is at that
column plus one, hence at an odd column at least 3 and never at the date
column. -/
theorem C9_delta_column_safety :
    (∀ (vals : List String) (p : ℕ × String),
      p ∈ get_targets_from_header vals → p.1 % 2 = 0 ∧ 2 ≤ p.1)
    ∧ (∀ (nm : ℕ → String) (cc : ℕ → Option ℤ) (pv : List (Option String)) (tr : ℕ)
        (vals : List String) (u : Cell),
        u ∈ (runEngine nm cc pv tr (get_targets_from_header vals)).delta_updates →
        u.col % 2 = 1 ∧ 3 ≤ u.col ∧ u.col ≠ DATE_COL) := by
  refine ⟨get_targets_from_header_even, ?_⟩
  intro nm cc pv tr vals u hu
  obtain ⟨t, htmem, hcol, _⟩ := runEngine_delta_cols nm cc pv tr _ u hu
  obtain ⟨heven, hge⟩ := get_targets_from_header_even vals t htmem
  refine ⟨?_, ?_, ?_⟩
  · omega
  · omega
  · show u.col ≠ 1
    omega

/-- Witness for C9: the single header entity at column 2 produces the
delta cell at column 3, which is odd, at least 3 and distinct from the
date column. -/
theorem C9_delta_column_safety_witness :
    (Cell.mk 3 3 (CellVal.int 2)).col % 2 = 1 ∧ 3 ≤ (Cell.mk 3 3 (CellVal.int 2)).col
      ∧ (Cell.mk 3 3 (CellVal.int 2)).col ≠ DATE_COL :=
  C9_delta_column_safety.2 (fun _ => "N") (fun _ => some 5) [none, none, some "3"] 3
    ["", "id1"] (Cell.mk 3 3 (CellVal.int 2)) (by decide)

/-- C8 counterexample: the sentinel key of an infinite ratio is the finite
number 10 to the 18th, so a genuine finite ratio of 2 * 10 to the 18th
(produced by delta_change_ratio on previous delta 1 and current delta
2 * 10 to the 18th plus 1) sorts above the infinite-ratio entity,
contradicting the claim that every infinite-ratio entity is ranked above
every finite-ratio entity. -/
theorem C8_alert_sort_counterexample :
    sortAlerts [(RatioVal.inf, "A", 0, 5),
        (RatioVal.val (2 * 10 ^ 18), "B", 1, 2 * 10 ^ 18 + 1)] =
      [(RatioVal.val (2 * 10 ^ 18), "B", 1, 2 * 10 ^ 18 + 1),
        (RatioVal.inf, "A", 0, 5)]
    ∧ delta_change_ratio 1 (2 * 10 ^ 18 + 1) = RatioVal.val (2 * 10 ^ 18) := by
  constructor
  · unfold sortAlerts
    simp only [List.insertionSort, List.orderedInsert, sort_key]
    rw [if_neg (by norm_num : ¬((2 * 10 ^ 18 : ℚ) ≤ 10 ^ 18))]
  · rw [delta_change_ratio]
    rw [if_neg (by norm_num)]
    congr 1
    push_cast
    rw [show (2000000000000000001 : ℚ) - 1 = 2 * 10 ^ 18 by norm_num]
    rw [abs_of_nonneg (by positivity), abs_of_nonneg (by norm_num : (0 : ℚ) ≤ 1)]
    norm_num

/-- C8 amended: the sorted alert list is a permutation of the hits in
non-increasing order of the sort key, where an infinite ratio gets the
sentinel key 10 to the 18th and a finite ratio is its own key; hence
finite-ratio entities appear in descending ratio order, every
infinite-ratio entity ranks above every finite-ratio entity whose ratio is
below 10 to the 18th, and any entity ranked above an infinite-ratio one
has key at least 10 to the 18th (so a finite ratio can outrank the
infinite sentinel only from 10 to the 18th upward). -/
theorem C8_amended_alert_sort :
    (∀ hits : List (RatioVal × String × ℤ × ℤ), List.Perm (sortAlerts hits) hits)
    ∧ (∀ (hits l1 l2 : List (RatioVal × String × ℤ × ℤ))
        (x y : RatioVal × String × ℤ × ℤ),
        sortAlerts hits = l1 ++ x :: l2 → y ∈ l2 → sort_key y ≤ sort_key x)
    ∧ (∀ (hits l1 l2 : List (RatioVal × String × ℤ × ℤ))
        (x y : RatioVal × String × ℤ × ℤ),
        sortAlerts hits = l1 ++ x :: l2 → y ∈ l2 → y.1 = RatioVal.inf →
        (10 : ℚ) ^ 18 ≤ sort_key x) := by
  have hsorted : ∀ hits : List (RatioVal × String × ℤ × ℤ),
      List.Sorted (fun a b => sort_key b ≤ sort_key a) (sortAlerts hits) := by
    intro hits
    haveI h1 : IsTotal (RatioVal × String × ℤ × ℤ) (fun a b => sort_key b ≤ sort_key a) :=
      ⟨fun a b => le_total (sort_key b) (sort_key a)⟩
    haveI h2 : IsTrans (RatioVal × String × ℤ × ℤ) (fun a b => sort_key b ≤ sort_key a) :=
      ⟨fun a b c hab hbc => le_trans hbc hab⟩
    exact List.sorted_insertionSort _ hits
  have hpair : ∀ (hits l1 l2 : List (RatioVal × String × ℤ × ℤ))
      (x y : RatioVal × String × ℤ × ℤ),
      sortAlerts hits = l1 ++ x :: l2 → y ∈ l2 → sort_key y ≤ sort_key x := by
    intro hits l1 l2 x y heq hy
    have hs := hsorted hits
    rw [heq] at hs
    have h3 := (List.pairwise_append.mp hs).2.1
    exact (List.pairwise_cons.mp h3).1 y hy
  refine ⟨fun hits => List.perm_insertionSort _ hits, hpair, ?_⟩
  intro hits l1 l2 x y heq hy hinf
  have h4 := hpair hits l1 l2 x y heq hy
  have h5 : sort_key y = 10 ^ 18 := by
    obtain ⟨r, rest⟩ := y
    simp only at hinf
    subst hinf
    rfl
  rw [h5] at h4
  exact h4

/-- Witness for C8 amended: with an infinite-ratio entity and a 1/2-ratio
entity, the sorted list puts the infinite entity first and the key
ordering holds between them. -/
theorem C8_amended_alert_sort_witness :
    sort_key (RatioVal.val (1 / 2), "B", 4, 6) ≤ sort_key (RatioVal.inf, "A", 0, 5) :=
  C8_amended_alert_sort.2.1
    [(RatioVal.inf, "A", 0, 5), (RatioVal.val (1 / 2), "B", 4, 6)]
    [] [(RatioVal.val (1 / 2), "B", 4, 6)]
    (RatioVal.inf, "A", 0, 5) (RatioVal.val (1 / 2), "B", 4, 6)
    (by
      unfold sortAlerts
      simp only [List.insertionSort, List.orderedInsert, sort_key]
      rw [if_pos (by norm_num : (1 / 2 : ℚ) ≤ 10 ^ 18)]
      rfl)
    (List.mem_cons_self _ _)

end KakaoFriends
